import Mathlib

/-!
Verification development for the Safari Tab Manager's Tab Reconciliation
Engine.  The Go source (a single main package) is shallowly embedded below:
pure functions become Lean functions, the stateful close loop becomes an
explicit command trace, `time.Time` is modelled as an integer number of Unix
seconds, and Go's `float64` similarity score is modelled as a rational
number.  Fallible external calls (the AppleScript snapshot, the History.db
store) are modelled by `Option`-valued inputs: `none` is the failure case.
-/

namespace SafariTab

/-- Go struct `Tab`: one open browser tab at enumeration time.
`DuplicateOf *int` becomes `Option Nat` (a back index into the same list),
`LastVisit time.Time` becomes an integer Unix timestamp (zero value `0`). -/
structure Tab where
  WindowIndex : Int
  TabIndex : Int
  Title : String
  URL : String
  DuplicateOf : Option Nat
  Selected : Bool
  LastVisit : Int
  IsOld : Bool
  deriving DecidableEq, Repr

/-- Zero value of `Tab`, used as the default for positional lookups. -/
def dTab : Tab := ⟨0, 0, "", "", none, false, 0, false⟩

/-! ### String helpers (Go `strings` package operations used by the engine) -/

/-- Go `strings.TrimPrefix(s, p)`: drop `p` from the front when it is there. -/
def trimPre (p s : List Char) : List Char :=
  if p.isPrefixOf s then s.drop p.length else s

/-- Go `strings.TrimSuffix(s, p)`: drop `p` from the back when it is there. -/
def trimSuf (p s : List Char) : List Char :=
  if p.isSuffixOf s then s.take (s.length - p.length) else s

/-- Split at the first occurrence of `sep` (nonempty in every use below):
`some (before, after)` or `none` when `sep` does not occur. -/
def splitFirst (sep : List Char) : List Char → Option (List Char × List Char)
  | [] => if sep.isEmpty then some ([], []) else none
  | c :: rest =>
    if sep.isPrefixOf (c :: rest) then some ([], (c :: rest).drop sep.length)
    else (splitFirst sep rest).map (fun q => (c :: q.1, q.2))

/-- Go `strings.SplitN(s, sep, 2)` for a nonempty separator. -/
def splitN2 (s sep : List Char) : List (List Char) :=
  match splitFirst sep s with
  | none => [s]
  | some q => [q.1, q.2]

/-- Go `strings.Split(s, sep)` for a single-character separator. -/
def splitAll (c : Char) : List Char → List (List Char)
  | [] => [[]]
  | a :: rest =>
    match splitAll c rest with
    | [] => [[a]]
    | h :: t => if a = c then [] :: h :: t else (a :: h) :: t

/-- Go `strings.ToLower` (character-wise lowering). -/
def toLowerStr (s : List Char) : List Char := s.map Char.toLower

/-! ### URL normalization and similarity (Go lines 643-761) -/

/-- Go `extractDomain`: strip `http://`, `https://`, `www.`, then everything
up to the first `/`, lower-cased. -/
def extractDomain (url : String) : String :=
  let u0 := trimPre "http://".toList url.toList
  let u1 := trimPre "https://".toList u0
  let u2 := trimPre "www.".toList u1
  match splitAll '/' u2 with
  | [] => ""
  | d :: _ => String.mk (toLowerStr d)

/-- Go `extractPath`: the part after `//` and after the next `/`, with one
trailing `/` stripped and a `/` put back in front; `""` when absent. -/
def extractPath (url : String) : String :=
  let parts := splitN2 url.toList "//".toList
  if parts.length < 2 then ""
  else
    let parts2 := splitN2 (parts.getD 1 []) "/".toList
    if parts2.length < 2 then ""
    else String.mk ('/' :: trimSuf "/".toList (parts2.getD 1 []))

/-- Unit substitution cost of the Go DP (`cost` variable, lines 724-727). -/
def subCost (a b : Char) : Nat := if a = b then 0 else 1

/-- Levenshtein distance: the recurrence the Go `matrix` fill implements
(lines 712-737), with `matrix[i][0] = i`, `matrix[0][j] = j` as the base
rows and `min(delete+1, insert+1, diagonal+cost)` as the step. -/
def lev : List Char → List Char → Nat
  | [], ys => ys.length
  | x :: xs, [] => (x :: xs).length
  | x :: xs, y :: ys =>
    min (lev xs (y :: ys) + 1) (min (lev (x :: xs) ys + 1) (lev xs ys + subCost x y))
  termination_by xs ys => xs.length + ys.length

/-- Go `calculateSimilarity` (lines 695-741): lower-case both strings, `1`
when equal, `0` when either is empty, else `1 - distance / maxLen`.
`float64` is modelled as `ℚ`. -/
def calculateSimilarity (s1 s2 : String) : ℚ :=
  let l1 := toLowerStr s1.toList
  let l2 := toLowerStr s2.toList
  if l1 = l2 then 1
  else if l1.length = 0 ∨ l2.length = 0 then 0
  else 1 - (lev l1 l2 : ℚ) / (max l1.length l2.length : ℚ)

/-- Go `areSimilarURLs` (lines 643-666): equal nonempty domains, then equal
paths or path similarity strictly above `0.7`. -/
def areSimilarURLs (url1 url2 : String) : Bool :=
  let domain1 := extractDomain url1
  let domain2 := extractDomain url2
  if domain1 = "" ∨ domain2 = "" then false
  else if domain1 ≠ domain2 then false
  else
    let path1 := extractPath url1
    let path2 := extractPath url2
    if path1 = path2 then true
    else decide (calculateSimilarity path1 path2 > 7/10)

/-- Character-wise mismatch count between two lists, an upper bound for
`lev` on equal-length lists. -/
def mismatches : List Char → List Char → Nat
  | x :: xs, y :: ys => subCost x y + mismatches xs ys
  | _, _ => 0

/-! ### Pinned-tab classifier (Go `filterPinnedTabs`, lines 560-617) -/

/-- Go `urlPositionCount[url][p]`: the number of tabs carrying `u` at exactly
position `p`, counted only over pin candidates (`TabIndex ≤ 4`). -/
def countAt (tabs : List Tab) (u : String) (p : Int) : Nat :=
  (tabs.filter (fun t => decide (t.TabIndex ≤ 4) && (t.URL == u) && (t.TabIndex == p))).length

/-- Go `pinnedURLs[u]`: some position of `u`'s per-position count map reaches
3; the map's keys are the pin-candidate positions of tabs carrying `u`. -/
def pinnedURL (tabs : List Tab) (u : String) : Bool :=
  tabs.any (fun t => (t.URL == u) && decide (t.TabIndex ≤ 4) && decide (3 ≤ countAt tabs u t.TabIndex))

/-- Go `filterPinnedTabs` result list: drop every pin candidate whose URL is
classified pinned. -/
def filterPinnedTabs (allTabs : List Tab) : List Tab :=
  allTabs.filter (fun t => !(decide (t.TabIndex ≤ 4) && pinnedURL allTabs t.URL))

/-- The number of distinct windows in which `u` appears as a pin candidate —
this definition follows the SPEC's words ("count the number of distinct
windows in which it appears as a pin candidate"), for comparison against the
code's `pinnedURL`. -/
def specPinWindowCount (tabs : List Tab) (u : String) : Nat :=
  (((tabs.filter (fun t => (t.URL == u) && decide (t.TabIndex ≤ 4))).map Tab.WindowIndex).dedup).length

/-! ### Staleness classifier (Go `enrichWithVisitData`, lines 495-558) -/

/-- Seconds from the Unix epoch to Jan 1 2001 (Core Foundation epoch). -/
def cfAbsoluteTimeOffset : Int := 978307200

/-- Go `visitTimes` map building (lines 532-542): the rows of the history
query in order, a later row for the same URL overwriting an earlier one;
each CF-absolute timestamp converted to Unix seconds. -/
def buildVisitTimes (rows : List (String × Int)) (u : String) : Option Int :=
  rows.foldl (fun acc r => if r.1 == u then some (r.2 + cfAbsoluteTimeOffset) else acc) none

/-- Go `enrichWithVisitData`: `db = none` models every failure to reach the
history store (home directory, open or query error) — the Go code then
returns `tabs` unchanged.  With rows available, each tab found in the map
gets `LastVisit` and `IsOld := lastVisit < now - ageDays` (in seconds;
`time.AddDate(0,0,-ageDays)` modelled as `ageDays * 86400` seconds), and a
tab absent from the map gets `IsOld := true`. -/
def enrichWithVisitData (tabs : List Tab) (ageDays : Int)
    (db : Option (List (String × Int))) (now : Int) : List Tab :=
  match db with
  | none => tabs
  | some rows =>
    let ageThreshold := now - ageDays * 86400
    tabs.map (fun t =>
      match buildVisitTimes rows t.URL with
      | some v => { t with LastVisit := v, IsOld := decide (v < ageThreshold) }
      | none => { t with IsOld := true })

/-! ### Duplicate detector (Go `findDuplicates`, lines 619-641) -/

/-- The inner `j`-loop of Go `findDuplicates`: the least index of an earlier
URL that matches `u`, exact equality checked before similarity. -/
def findDupIdx (u : String) : List String → Option Nat
  | [] => none
  | v :: rest =>
    if u = v then some 0
    else if areSimilarURLs u v then some 0
    else (findDupIdx u rest).map (fun j => j + 1)

/-- One step of the outer loop: annotate tab `t` against the URLs `us` of
the already processed prefix. -/
def dupStep (us : List String) (t : Tab) : Tab :=
  match findDupIdx t.URL us with
  | some j => { t with DuplicateOf := some j, Selected := true }
  | none => t

/-- The outer `i`-loop: `done` is the processed prefix (the in-place
mutated array cells `0..i-1`, whose URLs the inner loop reads). -/
def findDupGo (done : List Tab) : List Tab → List Tab
  | [] => []
  | t :: rest =>
    let t1 := dupStep (done.map Tab.URL) t
    t1 :: findDupGo (done ++ [t1]) rest

/-- Go `findDuplicates`. -/
def findDuplicates (tabs : List Tab) : List Tab := findDupGo [] tabs

/-- An earlier URL `v` matches the current URL `u`: exact equality (the
first test of the inner loop) or fuzzy similarity (the second). -/
def matchU (u v : String) : Prop := u = v ∨ areSimilarURLs u v = true

instance (u v : String) : Decidable (matchU u v) := by
  unfold matchU
  infer_instance

/-! ### Closure reconciler (Go `closeTabsAsync`, lines 337-414) -/

/-- Go's anonymous `windowTab` struct (lines 353-357). -/
structure WindowTab where
  window : Int
  tab : Int
  url : String
  deriving DecidableEq, Repr

/-- The matching loop (lines 359-369): walk the fresh snapshot in order;
a tab whose URL is still in the target set is recorded and its URL removed
from the set. -/
def matchTabs : List Tab → List String → List WindowTab
  | [], _ => []
  | t :: rest, urls =>
    if t.URL ∈ urls then
      ⟨t.WindowIndex, t.TabIndex, t.URL⟩ :: matchTabs rest (urls.filter (fun u => u ≠ t.URL))
    else matchTabs rest urls

/-- The close order of lines 371-377: window descending, then tab index
descending (`closeLE a b` = `a` may come before `b`). -/
def closeLE (a b : WindowTab) : Prop :=
  b.window < a.window ∨ (a.window = b.window ∧ b.tab ≤ a.tab)

instance : DecidableRel closeLE := fun a b => by
  unfold closeLE
  infer_instance

instance : IsTotal WindowTab closeLE :=
  ⟨fun a b => by unfold closeLE; omega⟩

instance : IsTrans WindowTab closeLE :=
  ⟨fun a b c hab hbc => by unfold closeLE at *; omega⟩

/-- Go `sort.Slice` on the matched set with the descending comparator. -/
def sortPlan (l : List WindowTab) : List WindowTab := List.insertionSort closeLE l

/-- One command issued to the Browser Automation Provider. -/
inductive Cmd where
  | closeTab (window tab : Int)
  | closeWindow (window : Int)
  deriving DecidableEq, Repr

/-- The per-tab close loop (lines 380-395): one `close tab _ of window _`
command per planned entry, issued in order; a failed command (per the
`fails` oracle) is only recorded as a warning and never stops the loop. -/
def runCloses (fails : Int → Int → Bool) : List WindowTab → List Cmd × List (Int × Int)
  | [] => ([], [])
  | wt :: rest =>
    let r := runCloses fails rest
    (Cmd.closeTab wt.window wt.tab :: r.1,
     (if fails wt.window wt.tab then [(wt.window, wt.tab)] else []) ++ r.2)

/-- Go `sort.Sort(sort.Reverse(sort.IntSlice(emptyWindows)))`. -/
def sortDescInt (l : List Int) : List Int := List.insertionSort (fun a b => b ≤ a) l

/-- The window close loop (lines 397-410), same best-effort shape. -/
def runWindowCloses (failsW : Int → Bool) : List Int → List Cmd × List Int
  | [] => ([], [])
  | w :: rest =>
    let r := runWindowCloses failsW rest
    (Cmd.closeWindow w :: r.1, (if failsW w then [w] else []) ++ r.2)

/-- What one invocation of the close operation produces: the reported count,
the full ordered command trace, and the failures that were only logged. -/
structure CloseResult where
  count : Nat
  cmds : List Cmd
  failedTabs : List (Int × Int)
  failedWindows : List Int
  deriving Repr

/-- Go `closeTabsAsync`: `snapshot = none` models `getSafariTabsRaw`
failing (the Go function then reports `closingCompleteMsg{count: 0}` having
issued nothing); otherwise build the URL target set, match against the
fresh snapshot, sort descending, issue the tab closes then the window
closes, and report the number of matched tabs. -/
def closeTabsAsync (snapshot : Option (List Tab)) (tabsToClose : List Tab)
    (emptyWindows : List Int) (fails : Int → Int → Bool) (failsW : Int → Bool) : CloseResult :=
  match snapshot with
  | none => ⟨0, [], [], []⟩
  | some currentTabs =>
    let urlsToClose := tabsToClose.map Tab.URL
    let plan := sortPlan (matchTabs currentTabs urlsToClose)
    let r1 := runCloses fails plan
    let r2 := runWindowCloses failsW (sortDescInt emptyWindows)
    ⟨plan.length, r1.1 ++ r2.1, r1.2, r2.2⟩

/-! ### Concrete inputs used by counterexamples and witnesses -/

/-- A URL at pin-candidate positions in three distinct windows, at three
different positions. -/
def pinTab (w p : Int) : Tab := ⟨w, p, "", "https://pin.example/", none, false, 0, false⟩

def pinCexTabs : List Tab := [pinTab 1 1, pinTab 2 2, pinTab 3 3]

def plainTab : Tab := ⟨1, 1, "T", "https://x.example/a", none, false, 0, false⟩

def stalenessRows : List (String × Int) := [("https://x.example/a", 100)]

/-- Tabs for the C3 witness: two tabs with the same URL. -/
def wTabA : Tab := ⟨1, 1, "A", "https://a.com/x", none, false, 0, false⟩

def wTabB : Tab := ⟨1, 2, "B", "https://a.com/x", none, false, 0, false⟩

/-! ### Edit-distance lemmas -/

theorem lev_nil_left (ys : List Char) : lev [] ys = ys.length := by
  simp [lev]

theorem lev_nil_right (xs : List Char) : lev xs [] = xs.length := by
  cases xs <;> simp [lev]

theorem lev_cons_cons (x : Char) (xs : List Char) (y : Char) (ys : List Char) :
    lev (x :: xs) (y :: ys)
      = min (lev xs (y :: ys) + 1) (min (lev (x :: xs) ys + 1) (lev xs ys + subCost x y)) := by
  simp [lev]

theorem subCost_comm (a b : Char) : subCost a b = subCost b a := by
  simp [subCost, eq_comm]

theorem lev_comm (xs ys : List Char) : lev xs ys = lev ys xs := by
  induction xs, ys using lev.induct with
  | case1 ys => rw [lev_nil_left, lev_nil_right]
  | case2 x xs => rw [lev_nil_left, lev_nil_right]
  | case3 x xs y ys ih1 ih2 ih3 =>
    rw [lev_cons_cons, lev_cons_cons, ih1, ih2, ih3, subCost_comm]
    omega

theorem lev_le_mismatches :
    ∀ xs ys : List Char, xs.length = ys.length → lev xs ys ≤ mismatches xs ys := by
  intro xs
  induction xs with
  | nil =>
    intro ys h
    cases ys with
    | nil => simp [lev_nil_left, mismatches]
    | cons y ys => simp at h
  | cons x xs ih =>
    intro ys h
    cases ys with
    | nil => simp at h
    | cons y ys =>
      simp only [List.length_cons, Nat.succ.injEq] at h
      have h1 := ih ys h
      rw [lev_cons_cons]
      have h2 : mismatches (x :: xs) (y :: ys) = subCost x y + mismatches xs ys := rfl
      omega

theorem calcSim_page_gt : calculateSimilarity "/page?id=1" "/page?id=2" > 7/10 := by
  have hlev : lev "/page?id=1".toList "/page?id=2".toList ≤ 1 := by
    have hb := lev_le_mismatches "/page?id=1".toList "/page?id=2".toList (by decide)
    have hm : mismatches "/page?id=1".toList "/page?id=2".toList = 1 := by decide
    omega
  have hq : ((lev "/page?id=1".toList "/page?id=2".toList : Nat) : ℚ) ≤ 1 := by
    exact_mod_cast hlev
  have e1 : List.map Char.toLower "/page?id=1".toList = "/page?id=1".toList := by decide
  have e2 : List.map Char.toLower "/page?id=2".toList = "/page?id=2".toList := by decide
  simp only [calculateSimilarity, toLowerStr]
  rw [e1, e2]
  rw [if_neg (by decide), if_neg (by decide)]
  have hl1 : ("/page?id=1".toList).length = 10 := by decide
  have hl2 : ("/page?id=2".toList).length = 10 := by decide
  rw [hl1, hl2]
  have hmax : ((10 : Nat) : ℚ) ⊔ ((10 : Nat) : ℚ) = 10 := by norm_num
  rw [hmax]
  linarith

theorem calculateSimilarity_comm (s t : String) :
    calculateSimilarity s t = calculateSimilarity t s := by
  simp only [calculateSimilarity]
  rcases eq_or_ne (toLowerStr s.toList) (toLowerStr t.toList) with h | h
  · rw [h]
  · rw [if_neg h, if_neg (Ne.symm h)]
    rcases em ((toLowerStr s.toList).length = 0 ∨ (toLowerStr t.toList).length = 0) with h0 | h0
    · rw [if_pos h0, if_pos h0.symm]
    · rw [if_neg h0, if_neg (fun hh => h0 hh.symm)]
      rw [lev_comm]
      rw [max_comm ((toLowerStr s.toList).length : ℚ) ((toLowerStr t.toList).length : ℚ)]

/-! ### Lemmas on the close pipeline -/

theorem runCloses_fst (fails : Int → Int → Bool) :
    ∀ l : List WindowTab,
      (runCloses fails l).1 = l.map (fun wt => Cmd.closeTab wt.window wt.tab)
  | [] => rfl
  | wt :: rest => by
    simp [runCloses, runCloses_fst fails rest]

theorem runWindowCloses_fst (failsW : Int → Bool) :
    ∀ l : List Int, (runWindowCloses failsW l).1 = l.map Cmd.closeWindow
  | [] => rfl
  | w :: rest => by
    simp [runWindowCloses, runWindowCloses_fst failsW rest]

theorem closeTabsAsync_cmds (currentTabs targets : List Tab) (ew : List Int)
    (fails : Int → Int → Bool) (failsW : Int → Bool) :
    (closeTabsAsync (some currentTabs) targets ew fails failsW).cmds
      = (sortPlan (matchTabs currentTabs (targets.map Tab.URL))).map
          (fun wt => Cmd.closeTab wt.window wt.tab)
        ++ (sortDescInt ew).map Cmd.closeWindow := by
  simp [closeTabsAsync, runCloses_fst, runWindowCloses_fst]

theorem matchTabs_mem :
    ∀ (snap : List Tab) (urls : List String), ∀ wt ∈ matchTabs snap urls,
      wt.url ∈ urls ∧
      ∃ t ∈ snap, t.WindowIndex = wt.window ∧ t.TabIndex = wt.tab ∧ t.URL = wt.url := by
  intro snap
  induction snap with
  | nil => intro urls wt hwt; simp [matchTabs] at hwt
  | cons t rest ih =>
    intro urls wt hwt
    by_cases hm : t.URL ∈ urls
    · rw [matchTabs, if_pos hm] at hwt
      rcases List.mem_cons.mp hwt with hh | hh
      · subst hh
        exact ⟨hm, t, List.mem_cons_self t rest, rfl, rfl, rfl⟩
      · rcases ih _ wt hh with ⟨hu, t2, ht2, he⟩
        exact ⟨(List.mem_filter.mp hu).1, t2, List.mem_cons_of_mem t ht2, he⟩
    · rw [matchTabs, if_neg hm] at hwt
      rcases ih _ wt hwt with ⟨hu, t2, ht2, he⟩
      exact ⟨hu, t2, List.mem_cons_of_mem t ht2, he⟩

theorem matchTabs_nodup :
    ∀ (snap : List Tab) (urls : List String),
      ((matchTabs snap urls).map WindowTab.url).Nodup := by
  intro snap
  induction snap with
  | nil => intro urls; simp [matchTabs]
  | cons t rest ih =>
    intro urls
    by_cases hm : t.URL ∈ urls
    · rw [matchTabs, if_pos hm]
      rw [List.map_cons, List.nodup_cons]
      refine ⟨?_, ih _⟩
      intro hmem
      rcases List.mem_map.mp hmem with ⟨wt, hwt, hurl⟩
      have hsub := (matchTabs_mem rest _ wt hwt).1
      rw [hurl] at hsub
      have := (List.mem_filter.mp hsub).2
      simp at this
    · rw [matchTabs, if_neg hm]
      exact ih _

/-- C4: in every close invocation the matched set is sorted by
`windowIndex` descending then `tabIndex` descending, the issued close-tab
commands follow exactly that order (before the window closes), and on the
spec's example the order is (2,1), (1,5), (1,2). -/
theorem close_plan_sorted_desc (snap targets : List Tab) (ew : List Int)
    (fails : Int → Int → Bool) (failsW : Int → Bool) :
    List.Sorted closeLE (sortPlan (matchTabs snap (targets.map Tab.URL))) ∧
    (sortPlan (matchTabs snap (targets.map Tab.URL))).Perm
      (matchTabs snap (targets.map Tab.URL)) ∧
    (closeTabsAsync (some snap) targets ew fails failsW).cmds
      = (sortPlan (matchTabs snap (targets.map Tab.URL))).map
          (fun wt => Cmd.closeTab wt.window wt.tab)
        ++ (sortDescInt ew).map Cmd.closeWindow ∧
    sortPlan [⟨1, 5, "a"⟩, ⟨1, 2, "b"⟩, ⟨2, 1, "c"⟩]
      = [⟨2, 1, "c"⟩, ⟨1, 5, "a"⟩, ⟨1, 2, "b"⟩] := by
  refine ⟨List.sorted_insertionSort closeLE _, List.perm_insertionSort closeLE _,
    closeTabsAsync_cmds snap targets ew fails failsW, ?_⟩
  decide

/-- C5: when the re-snapshot fails the close operation reports zero closed
tabs and issues no close-tab or close-window command at all. -/
theorem close_aborts_on_snapshot_failure (targets : List Tab) (ew : List Int)
    (fails : Int → Int → Bool) (failsW : Int → Bool) :
    (closeTabsAsync none targets ew fails failsW).count = 0 ∧
    (closeTabsAsync none targets ew fails failsW).cmds = [] :=
  ⟨rfl, rfl⟩

/-- C6: matching is by URL against the fresh snapshot, each matched entry
is a live snapshot tab whose URL is in the target set, and each URL yields
at most one close-tab command (the matched URLs are pairwise distinct). -/
theorem close_at_most_one_per_url (snap targets : List Tab) :
    ((matchTabs snap (targets.map Tab.URL)).map WindowTab.url).Nodup ∧
    ∀ wt ∈ matchTabs snap (targets.map Tab.URL),
      wt.url ∈ targets.map Tab.URL ∧
      ∃ t ∈ snap, t.WindowIndex = wt.window ∧ t.TabIndex = wt.tab ∧ t.URL = wt.url :=
  ⟨matchTabs_nodup snap _, matchTabs_mem snap _⟩

/-- C7: an individual close failure never drops a later command — the
command trace is the same as in a failure-free run — and the reported count
is the number of matched (attempted) tabs, whatever the failures were. -/
theorem close_best_effort_count (snap targets : List Tab) (ew : List Int)
    (fails : Int → Int → Bool) (failsW : Int → Bool) :
    (closeTabsAsync (some snap) targets ew fails failsW).cmds
      = (closeTabsAsync (some snap) targets ew (fun _ _ => false) (fun _ => false)).cmds ∧
    (closeTabsAsync (some snap) targets ew fails failsW).count
      = (matchTabs snap (targets.map Tab.URL)).length := by
  constructor
  · rw [closeTabsAsync_cmds, closeTabsAsync_cmds]
  · show (sortPlan (matchTabs snap (targets.map Tab.URL))).length = _
    exact (List.perm_insertionSort closeLE _).length_eq

/-! ### Pinned classification: C1 -/

theorem countAt_le_candidates (tabs : List Tab) (u : String) (p : Int) :
    countAt tabs u p
      ≤ (tabs.filter (fun t => (t.URL == u) && decide (t.TabIndex ≤ 4))).length := by
  refine List.Sublist.length_le (List.monotone_filter_right tabs ?_)
  intro a ha
  simp only [Bool.and_eq_true, decide_eq_true_eq, beq_iff_eq] at ha ⊢
  exact ⟨ha.1.2, ha.1.1⟩

theorem pinnedURL_iff (tabs : List Tab) (u : String) :
    pinnedURL tabs u = true ↔ ∃ p : Int, p ≤ 4 ∧ 3 ≤ countAt tabs u p := by
  constructor
  · intro h
    rcases List.any_eq_true.mp h with ⟨t, ht, hp⟩
    simp only [Bool.and_eq_true, decide_eq_true_eq, beq_iff_eq] at hp
    exact ⟨t.TabIndex, hp.1.2, hp.2⟩
  · rintro ⟨p, hp4, hcnt⟩
    have hne : tabs.filter
        (fun t => decide (t.TabIndex ≤ 4) && (t.URL == u) && (t.TabIndex == p)) ≠ [] := by
      intro he
      rw [countAt, he] at hcnt
      simp at hcnt
    rcases List.exists_mem_of_ne_nil _ hne with ⟨t, ht⟩
    have htf := List.mem_filter.mp ht
    obtain ⟨hmem, hprops⟩ := htf
    simp only [Bool.and_eq_true, decide_eq_true_eq, beq_iff_eq] at hprops
    obtain ⟨⟨h4, hurl⟩, hidx⟩ := hprops
    apply List.any_eq_true.mpr
    refine ⟨t, hmem, ?_⟩
    simp only [Bool.and_eq_true, decide_eq_true_eq, beq_iff_eq]
    exact ⟨⟨hurl, h4⟩, hidx ▸ hcnt⟩

/-- C1 (amended): a URL is classified pinned iff there is a single position
`p ≤ 4` at which it appears in at least 3 tabs, i.e. the same early position
across 3 or more windows; in particular a URL with at most 2 pin-candidate
occurrences (e.g. appearing at positions 1-4 in exactly 2 windows) is never
pinned. -/
theorem pinned_iff_same_position (tabs : List Tab) (u : String) :
    (pinnedURL tabs u = true ↔ ∃ p : Int, p ≤ 4 ∧ 3 ≤ countAt tabs u p) ∧
    ((tabs.filter (fun t => (t.URL == u) && decide (t.TabIndex ≤ 4))).length ≤ 2 →
      pinnedURL tabs u = false) := by
  refine ⟨pinnedURL_iff tabs u, fun hlen => ?_⟩
  rw [← Bool.not_eq_true]
  intro htrue
  rcases (pinnedURL_iff tabs u).mp htrue with ⟨p, _, hc⟩
  have := countAt_le_candidates tabs u p
  omega

/-- C1 counterexample: this URL appears as a pin candidate in 3 distinct
windows (at different positions), yet the code does not classify it pinned —
the code demands the same position, the claim only distinct windows. -/
theorem pinned_three_windows_cex :
    specPinWindowCount pinCexTabs "https://pin.example/" = 3 ∧
    pinnedURL pinCexTabs "https://pin.example/" = false := by
  decide

/-! ### Staleness classifier with an unavailable store: C2 -/

/-- C2 counterexample: with the history store wholly unavailable (`none`),
the returned list contains a tab whose stale flag is `false`, so not every
tab is marked stale as the claim requires. -/
theorem enrich_unavailable_not_all_stale_cex :
    ∃ t ∈ enrichWithVisitData [plainTab] 30 none 0, t.IsOld = false := by
  decide

/-- C2 (amended): when the history store is wholly unavailable the engine
returns the tab list unchanged — every tab keeps its prior stale flag
(`false` for a fresh snapshot), rather than being marked stale. -/
theorem enrich_unavailable_returns_unchanged (tabs : List Tab) (ageDays now : Int) :
    enrichWithVisitData tabs ageDays none now = tabs :=
  rfl

/-! ### Staleness boundary: C8 -/

/-- C8: with the history rows available, the stale flag of the `i`-th tab is
set exactly when the lookup finds nothing for its URL or finds a timestamp
strictly older than `now - ageDays` (in seconds); a visit exactly at the
threshold is not stale. -/
theorem isOld_iff_absent_or_older (tabs : List Tab) (d : Int) (rows : List (String × Int))
    (now : Int) (i : Nat) (h : i < tabs.length) :
    (((enrichWithVisitData tabs d (some rows) now).getD i dTab).IsOld = true ↔
      buildVisitTimes rows ((tabs.getD i dTab).URL) = none ∨
      ∃ v, buildVisitTimes rows ((tabs.getD i dTab).URL) = some v ∧ v < now - d * 86400) ∧
    (buildVisitTimes rows ((tabs.getD i dTab).URL) = some (now - d * 86400) →
      ((enrichWithVisitData tabs d (some rows) now).getD i dTab).IsOld = false) := by
  simp only [enrichWithVisitData]
  have hlen : i < (tabs.map (fun t =>
      match buildVisitTimes rows t.URL with
      | some v => { t with LastVisit := v, IsOld := decide (v < now - d * 86400) }
      | none => { t with IsOld := true })).length := by
    simpa using h
  rw [List.getD_eq_getElem _ _ hlen, List.getD_eq_getElem _ _ h, List.getElem_map]
  cases hb : buildVisitTimes rows (tabs[i].URL) with
  | none =>
    constructor
    · simp
    · intro hsome
      cases hsome
  | some v =>
    constructor
    · constructor
      · intro hdec
        simp only at hdec
        exact Or.inr ⟨v, rfl, of_decide_eq_true hdec⟩
      · rintro (hnone | ⟨v2, hv2, hlt⟩)
        · cases hnone
        · cases hv2
          simp only
          exact decide_eq_true hlt
    · intro hsome
      cases hsome
      simp

/-- Concrete instance discharging C8's index hypothesis. -/
theorem isOld_iff_absent_or_older_witness :
    (0 : Nat) < ([plainTab] : List Tab).length ∧
    ((((enrichWithVisitData [plainTab] 30 (some stalenessRows) 0).getD 0 dTab).IsOld = true ↔
      buildVisitTimes stalenessRows (([plainTab] : List Tab).getD 0 dTab).URL = none ∨
      ∃ v, buildVisitTimes stalenessRows (([plainTab] : List Tab).getD 0 dTab).URL = some v ∧
        v < 0 - 30 * 86400) ∧
    (buildVisitTimes stalenessRows (([plainTab] : List Tab).getD 0 dTab).URL
        = some (0 - 30 * 86400) →
      ((enrichWithVisitData [plainTab] 30 (some stalenessRows) 0).getD 0 dTab).IsOld = false)) :=
  ⟨by decide, isOld_iff_absent_or_older [plainTab] 30 stalenessRows 0 0 (by decide)⟩

/-! ### Similarity test vectors and symmetry: C9, C10 -/

/-- C9: the spec's two `areSimilarURLs` vectors hold — equal normalized
domain and path for the first pair, and for the second pair the normalized
paths are one edit apart, so the similarity exceeds 0.70. -/
theorem areSimilarURLs_spec_vectors :
    areSimilarURLs "https://example.com/article" "https://www.example.com/article/" = true ∧
    areSimilarURLs "https://site.com/page?id=1" "https://site.com/page?id=2" = true ∧
    calculateSimilarity "/page?id=1" "/page?id=2" > 7/10 := by
  refine ⟨by decide, ?_, calcSim_page_gt⟩
  have hred : areSimilarURLs "https://site.com/page?id=1" "https://site.com/page?id=2"
      = decide (calculateSimilarity "/page?id=1" "/page?id=2" > 7/10) := rfl
  rw [hred]
  exact decide_eq_true calcSim_page_gt

/-- C10: `areSimilarURLs` is symmetric in its two URL arguments. -/
theorem areSimilarURLs_comm (u1 u2 : String) :
    areSimilarURLs u1 u2 = areSimilarURLs u2 u1 := by
  simp only [areSimilarURLs]
  split_ifs <;> first
    | rfl
    | tauto
    | rw [calculateSimilarity_comm (extractPath u1) (extractPath u2)]

/-! ### Duplicate detector: C3 -/

theorem findDupIdx_cons_match (u v : String) (rest : List String) (hm : matchU u v) :
    findDupIdx u (v :: rest) = some 0 := by
  rw [findDupIdx]
  rcases hm with he | hs
  · rw [if_pos he]
  · by_cases he : u = v
    · rw [if_pos he]
    · rw [if_neg he, if_pos hs]

theorem findDupIdx_cons_nomatch (u v : String) (rest : List String) (hm : ¬ matchU u v) :
    findDupIdx u (v :: rest) = (findDupIdx u rest).map (fun j => j + 1) := by
  rw [findDupIdx]
  rw [if_neg (fun he => hm (Or.inl he)), if_neg (fun hs => hm (Or.inr hs))]

theorem findDupIdx_none_iff (u : String) :
    ∀ l : List String, findDupIdx u l = none ↔ ∀ j, j < l.length → ¬ matchU u (l.getD j "") := by
  intro l
  induction l with
  | nil => simp [findDupIdx]
  | cons v rest ih =>
    by_cases hm : matchU u v
    · rw [findDupIdx_cons_match u v rest hm]
      constructor
      · intro hcontra
        cases hcontra
      · intro hall
        exact absurd hm (by simpa using hall 0 (by simp))
    · rw [findDupIdx_cons_nomatch u v rest hm]
      rw [Option.map_eq_none', ih]
      constructor
      · intro hall j hj
        cases j with
        | zero => simpa using hm
        | succ k =>
          have := hall k (by simpa using hj)
          simpa using this
      · intro hall j hj
        have := hall (j + 1) (by simpa using hj)
        simpa using this

theorem findDupIdx_some_iff (u : String) :
    ∀ (l : List String) (j : Nat), findDupIdx u l = some j ↔
      j < l.length ∧ matchU u (l.getD j "") ∧ ∀ k, k < j → ¬ matchU u (l.getD k "") := by
  intro l
  induction l with
  | nil => intro j; simp [findDupIdx]
  | cons v rest ih =>
    intro j
    by_cases hm : matchU u v
    · rw [findDupIdx_cons_match u v rest hm]
      constructor
      · intro h
        have hj : j = 0 := by
          have := Option.some.injEq 0 j
          cases h
          rfl
        subst hj
        exact ⟨by simp, by simpa using hm, fun k hk => absurd hk (Nat.not_lt_zero k)⟩
      · rintro ⟨hj, hmj, hmin⟩
        cases j with
        | zero => rfl
        | succ k => exact absurd hm (by simpa using hmin 0 (Nat.succ_pos k))
    · rw [findDupIdx_cons_nomatch u v rest hm]
      cases j with
      | zero =>
        constructor
        · intro h
          rcases Option.map_eq_some'.mp h with ⟨a, _, hcontra⟩
          omega
        · rintro ⟨hj, hmj, hmin⟩
          exact absurd (by simpa using hmj) hm
      | succ k =>
        constructor
        · intro h
          rcases Option.map_eq_some'.mp h with ⟨a, ha, hak⟩
          have ha2 : findDupIdx u rest = some k := by
            have hak2 : a = k := by omega
            rw [hak2] at ha
            exact ha
          rcases (ih k).mp ha2 with ⟨hlen, hmk, hmin⟩
          refine ⟨by simpa using hlen, by simpa using hmk, ?_⟩
          intro m hm2
          cases m with
          | zero => simpa using hm
          | succ m2 =>
            have := hmin m2 (by omega)
            simpa using this
        · rintro ⟨hj, hmj, hmin⟩
          have hrest : findDupIdx u rest = some k := by
            apply (ih k).mpr
            refine ⟨by simpa using hj, by simpa using hmj, ?_⟩
            intro m hm2
            have := hmin (m + 1) (by omega)
            simpa using this
          rw [hrest]
          rfl

theorem dupStep_URL (us : List String) (t : Tab) : (dupStep us t).URL = t.URL := by
  rw [dupStep]
  cases findDupIdx t.URL us <;> rfl

theorem findDupGo_getElem? :
    ∀ (rest : List Tab) (done : List Tab) (i : Nat) (t : Tab), rest[i]? = some t →
      (findDupGo done rest)[i]?
        = some (dupStep (done.map Tab.URL ++ (rest.take i).map Tab.URL) t) := by
  intro rest
  induction rest with
  | nil => intro done i t h; simp at h
  | cons t0 rest ih =>
    intro done i t h
    cases i with
    | zero =>
      have ht : t0 = t := by simpa using h
      subst ht
      simp [findDupGo]
    | succ k =>
      rw [findDupGo]
      simp only [List.getElem?_cons_succ]
      have h2 : rest[k]? = some t := by simpa using h
      rw [ih (done ++ [dupStep (done.map Tab.URL) t0]) k t h2]
      congr 2
      rw [List.map_append]
      simp [dupStep_URL, List.append_assoc]

/-- C3: for every ordered tab list (with no pre-set duplicate links, as the
snapshot produces) and every index `i`, the detector links tab `i` to the
least earlier index whose URL matches exactly or by similarity (exact
checked first), and leaves the link absent when no earlier tab matches; so
a set link always points strictly earlier. -/
theorem findDuplicates_first_match (tabs : List Tab)
    (hin : ∀ t ∈ tabs, t.DuplicateOf = none) (i : Nat) (ti : Tab)
    (hi : tabs[i]? = some ti) :
    ∃ ti', (findDuplicates tabs)[i]? = some ti' ∧
      (∀ j, ti'.DuplicateOf = some j ↔
        j < i ∧ matchU ti.URL ((tabs.map Tab.URL).getD j "") ∧
        ∀ k, k < j → ¬ matchU ti.URL ((tabs.map Tab.URL).getD k "")) ∧
      (ti'.DuplicateOf = none ↔
        ∀ j, j < i → ¬ matchU ti.URL ((tabs.map Tab.URL).getD j "")) := by
  have hlen : i < tabs.length := by
    rcases List.getElem?_eq_some.mp hi with ⟨hl, _⟩
    exact hl
  have hspec := findDupGo_getElem? tabs [] i ti hi
  simp only [List.map_nil, List.nil_append] at hspec
  refine ⟨dupStep ((tabs.take i).map Tab.URL) ti, by simpa [findDuplicates] using hspec,
    ?_, ?_⟩
  all_goals {
    have huslen : ((tabs.take i).map Tab.URL).length = i := by
      simp [List.length_take]
      omega
    have husget : ∀ j, j < i →
        ((tabs.take i).map Tab.URL).getD j "" = (tabs.map Tab.URL).getD j "" := by
      intro j hj
      rw [List.map_take, List.getD_eq_getElem?_getD, List.getD_eq_getElem?_getD,
        List.getElem?_take_of_lt hj]
    first
    | -- the `some j` characterization
      (intro j
       cases hb : findDupIdx ti.URL ((tabs.take i).map Tab.URL) with
       | some j0 =>
         have hstep : dupStep ((tabs.take i).map Tab.URL) ti
             = { ti with DuplicateOf := some j0, Selected := true } := by
           rw [dupStep, hb]
         rcases (findDupIdx_some_iff ti.URL _ j0).mp hb with ⟨hj0, hm0, hmin0⟩
         rw [huslen] at hj0
         rw [husget j0 hj0] at hm0
         rw [hstep]
         constructor
         · intro hsome
           have hj : j0 = j := by
             simpa using hsome
           subst hj
           refine ⟨hj0, hm0, ?_⟩
           intro k hk
           have := hmin0 k hk
           rw [husget k (Nat.lt_trans hk hj0)] at this
           exact this
         · rintro ⟨hj, hmj, hminj⟩
           have : findDupIdx ti.URL ((tabs.take i).map Tab.URL) = some j := by
             apply (findDupIdx_some_iff ti.URL _ j).mpr
             refine ⟨by omega, by rw [husget j hj]; exact hmj, ?_⟩
             intro k hk
             rw [husget k (Nat.lt_trans hk hj)]
             exact hminj k hk
           rw [hb] at this
           simpa using this
       | none =>
         have hstep : dupStep ((tabs.take i).map Tab.URL) ti = ti := by
           rw [dupStep, hb]
         have hti : ti.DuplicateOf = none := hin ti (List.getElem?_mem hi)
         rw [hstep, hti]
         constructor
         · intro hcontra
           cases hcontra
         · rintro ⟨hj, hmj, hminj⟩
           have : findDupIdx ti.URL ((tabs.take i).map Tab.URL) = some j := by
             apply (findDupIdx_some_iff ti.URL _ j).mpr
             refine ⟨by omega, by rw [husget j hj]; exact hmj, ?_⟩
             intro k hk
             rw [husget k (Nat.lt_trans hk hj)]
             exact hminj k hk
           rw [hb] at this
           cases this)
    | -- the `none` characterization
      (cases hb : findDupIdx ti.URL ((tabs.take i).map Tab.URL) with
       | some j0 =>
         have hstep : dupStep ((tabs.take i).map Tab.URL) ti
             = { ti with DuplicateOf := some j0, Selected := true } := by
           rw [dupStep, hb]
         rcases (findDupIdx_some_iff ti.URL _ j0).mp hb with ⟨hj0, hm0, hmin0⟩
         rw [huslen] at hj0
         rw [husget j0 hj0] at hm0
         rw [hstep]
         constructor
         · intro hcontra
           cases hcontra
         · intro hall
           exact absurd hm0 (hall j0 hj0)
       | none =>
         have hstep : dupStep ((tabs.take i).map Tab.URL) ti = ti := by
           rw [dupStep, hb]
         have hti : ti.DuplicateOf = none := hin ti (List.getElem?_mem hi)
         have hnone := (findDupIdx_none_iff ti.URL _).mp hb
         rw [hstep, hti]
         constructor
         · intro _ j hj
           have := hnone j (by omega)
           rw [husget j hj] at this
           exact this
         · intro _
           rfl)
  }

/-- Concrete instance discharging C3's hypotheses. -/
theorem findDuplicates_first_match_witness :
    ∃ ti', (findDuplicates [wTabA, wTabB])[1]? = some ti' ∧
      (∀ j, ti'.DuplicateOf = some j ↔
        j < 1 ∧ matchU wTabB.URL ((([wTabA, wTabB] : List Tab).map Tab.URL).getD j "") ∧
        ∀ k, k < j → ¬ matchU wTabB.URL ((([wTabA, wTabB] : List Tab).map Tab.URL).getD k "")) ∧
      (ti'.DuplicateOf = none ↔
        ∀ j, j < 1 → ¬ matchU wTabB.URL ((([wTabA, wTabB] : List Tab).map Tab.URL).getD j "")) :=
  findDuplicates_first_match [wTabA, wTabB] (by decide) 1 wTabB (by decide)

end SafariTab
